import Mathlib

/- Verification development for the zhol code-cave hooking library.

   The Rust sources are shallowly embedded: byte buffers are `List Nat`
   (each entry a byte value), machine words are `Nat` with explicit
   `% 2^32` / `% 2^64` where wrapping matters, fallible code returns
   `Except`/`Option`, and a Rust panic (out-of-bounds `Vec` index) is
   modelled as `Option.none`. -/

namespace Zhol

/- ===== src/process/pattern.rs ===== -/

/- `pub type Byte = Option<u8>;` (src/memory/mod.rs).  `none` is an IDA
   wildcard. -/
abbrev Byte := Option Nat

/- `byte_matches` (src/process/pattern.rs): a wildcard matches anything,
   otherwise the bytes must be equal. -/
def byte_matches (byte : Nat) (pattern : Byte) : Bool :=
  match pattern with
  | none => true
  | some b => b == byte

/- The inner loop of `find_pattern_in_bytes`: compare the pattern suffix
   `ps` against `bytes` starting at index `k` (`k = i + j` in the Rust
   loop).  The Rust code indexes `bytes[i + j]` with a panicking index;
   `none` models that panic. -/
def match_loop (bytes : List Nat) : Nat → List Byte → Option Bool
  | _, [] => some true
  | k, p :: ps =>
    match bytes.get? k with
    | none => none
    | some b => if byte_matches b p then match_loop bytes (k + 1) ps else some false

/- The outer loop of `find_pattern_in_bytes`, iterating `fuel` offsets
   starting at `i` (the Rust loop runs
   `for i in 0..=bytes.len().saturating_sub(pattern_length)`).
   A match at offset `i` records `(i, bytes[i..i+pattern.len()])`. -/
def scan_from (bytes : List Nat) (pattern : List Byte) : Nat → Nat → Option (List (Nat × List Nat))
  | _, 0 => some []
  | i, fuel + 1 =>
    match match_loop bytes i pattern with
    | none => none
    | some true =>
      (scan_from bytes pattern (i + 1) fuel).map
        (fun rest => (i, (bytes.drop i).take pattern.length) :: rest)
    | some false => scan_from bytes pattern (i + 1) fuel

/- `find_pattern_in_bytes` (src/process/pattern.rs:64).  The number of
   outer iterations is `bytes.len().saturating_sub(pattern.len()) + 1`;
   `Nat` subtraction is already saturating. -/
def find_pattern_in_bytes (bytes : List Nat) (pattern : List Byte) :
    Option (List (Nat × List Nat)) :=
  scan_from bytes pattern 0 (bytes.length - pattern.length + 1)

/- `create_unhook_bytes` (src/process/pattern.rs:88): pointwise, the found
   byte where the pattern has a wildcard, else the pattern byte. -/
def create_unhook_bytes (pattern : List Byte) (found_bytes : List Nat) : List Nat :=
  (pattern.zip found_bytes).map
    (fun pb => match pb.1 with
      | none => pb.2
      | some b => b)

/- Modelled from the spec (scanner soundness/completeness wording, for the
   refinement comparison in claim C3): `o` is a match offset when the whole
   pattern fits at `o` and every non-wildcard position agrees. -/
def matches_at (H : List Nat) (P : List Byte) (o : Nat) : Bool :=
  decide (o + P.length ≤ H.length) &&
    (List.range P.length).all fun i =>
      match P.get? i with
      | some (some b) => H.get? (o + i) == some b
      | _ => true

/- Modelled from the spec: the list of all match offsets in ascending
   order, each paired with the captured haystack slice. -/
def spec_find_all (H : List Nat) (P : List Byte) : List (Nat × List Nat) :=
  (List.range (H.length - P.length + 1)).filterMap fun o =>
    if matches_at H P o then some (o, (H.drop o).take P.length) else none

/- ===== src/error/mod.rs ===== -/

/- `MemOpError` (src/error/mod.rs:21).  An `anyhow::Error` with its context
   chain is modelled as a `List String` (outermost context first); durations
   become nanosecond counts and the numeric Debug renderings of the Windows
   flag newtypes are abbreviated to decimal numerals. -/
inductive MemOpError where
  | timeoutReached (timeout : Option Nat) (ctx : Option String)
  | memoryStateInvalid (allocState prot pageType flag : Nat) (ctx : Option String)
  | patternNotFound
  | winAPI (code : Int) (msg : String) (ctx : Option String)
  | other (chain : List String)
  deriving DecidableEq

/- `MemOpError::is_timeout` (src/error/mod.rs:65). -/
def MemOpError.is_timeout : MemOpError → Bool
  | .timeoutReached _ _ => true
  | _ => false

/- `MemOpError::is_memory_state_invalid` (src/error/mod.rs:70). -/
def MemOpError.is_memory_state_invalid : MemOpError → Bool
  | .memoryStateInvalid _ _ _ _ _ => true
  | _ => false

/- `MemOpError::is_winapi` (src/error/mod.rs:75). -/
def MemOpError.is_winapi : MemOpError → Bool
  | .winAPI _ _ _ => true
  | _ => false

def MemOpError.is_other : MemOpError → Bool
  | .other _ => true
  | _ => false

/- `MemOpError::root_cause_string` (src/error/mod.rs:80).  String layout
   follows the Rust `format!` templates; `{:#?}`/`{:08X}` renderings of
   numeric payloads are abbreviated to `toString`. -/
def MemOpError.root_cause_string : MemOpError → String
  | .timeoutReached (some t) (some e) =>
      "Timeout operation of context \"" ++ e ++
        "\" failed to complete within timeout \"" ++ toString t ++ "\"."
  | .timeoutReached (some t) none =>
      "Timeout operation failed to complete within timeout \"" ++ toString t ++ "\"."
  | .timeoutReached none none =>
      "Timeout operation failed to complete within timeout."
  | .timeoutReached none (some e) =>
      "Timeout operation of context \"" ++ e ++ "\" failed to complete with its timeout."
  | .memoryStateInvalid st pr ty flag ctx =>
      let bad_attrs :=
        (if flag &&& 1 ≠ 0 then [toString st] else []) ++
        (if flag &&& 2 ≠ 0 then [toString pr] else []) ++
        (if flag &&& 4 ≠ 0 then [toString ty] else [])
      let attr_err := String.intercalate ", " bad_attrs
      match ctx with
      | some e =>
          "Memory operation of context \"" ++ e ++
            "\" failed with following invalid states: \"" ++ attr_err ++ "\""
      | none =>
          "Memory operation failed with the following invalid states: \"" ++ attr_err ++ "\""
  | .winAPI code msg ctx =>
      match ctx with
      | some e =>
          "Windows API call with context \"" ++ e ++ "\" failed with: \"Windows Error: " ++
            toString code ++ " - " ++ msg ++ "\""
      | none =>
          "Windows API call failed with: \"Windows Error: " ++ toString code ++ " - " ++
            msg ++ "\""
  | .patternNotFound => "Pattern not found"
  | .other chain => String.intercalate ": " chain

/- The `Display` impl (src/error/mod.rs:145). -/
def MemOpError.display (e : MemOpError) : String :=
  "MemOpError: \"" ++ e.root_cause_string ++ "\""

/- `MemOpResultExt::context` for `MemOpResult<T>` (src/error/mod.rs:232):
   an `Other` base extends its anyhow chain with the new context prepended;
   any other base variant is rebuilt as `Other(anyhow!("{}: {}", ctx, err))`
   where the base error renders through its `Display` impl. -/
def memop_context {α : Type} (r : Except MemOpError α) (c : String) : Except MemOpError α :=
  match r with
  | .ok v => .ok v
  | .error e =>
    .error (match e with
      | .other chain => .other (c :: chain)
      | e' => .other [c ++ ": " ++ e'.display])

/- ===== src/memory/mod.rs: data model ===== -/

/- `MemoryRegion` (src/memory/mod.rs:25).  The handle is the shared
   process-handle value. -/
structure MemoryRegion where
  handle : Nat
  addr : Nat
  size : Nat
  deriving DecidableEq

/- `MemOpContext` (src/memory/mod.rs:71); timeouts in nanoseconds. -/
structure MemOpContext where
  addr : Nat
  offset : Nat
  at_pointer : Bool
  timeout : Option Nat
  deriving DecidableEq

/- `HookData` (src/hooks/mod.rs:238). -/
structure HookData where
  module_addr : Nat
  hook_mem : MemoryRegion
  var_mem : MemoryRegion
  pattern : List Byte
  var_size : Nat
  hook_alloc_size : Nat
  addr : Option Nat
  found_bytes : Option (List Nat)
  deriving DecidableEq

/- ===== Drop for MemoryRegion (src/memory/mod.rs:62) ===== -/

/- The OS calls a region teardown could issue: `VirtualFree` acts on the
   calling process; `VirtualFreeEx` acts on the process named by a handle. -/
inductive OsCall where
  | virtualFree (addr size freeType : Nat)
  | virtualFreeEx (handle addr size freeType : Nat)
  deriving DecidableEq

def OsCall.uses_handle : OsCall → Bool
  | .virtualFreeEx _ _ _ _ => true
  | _ => false

def MEM_RELEASE : Nat := 0x8000

/- `impl Drop for MemoryRegion` (src/memory/mod.rs:62):
   `VirtualFree(self.addr as *mut c_void, self.size, MEM_RELEASE)` — the
   local-process free, issued without `self.handle`. -/
def memoryRegion_drop (r : MemoryRegion) : OsCall :=
  OsCall.virtualFree r.addr r.size MEM_RELEASE

/- ===== src/memory/utils.rs: page safety and wait loop ===== -/

def PAGE_NOACCESS : Nat := 0x01
def PAGE_READONLY : Nat := 0x02
def PAGE_READWRITE : Nat := 0x04
def PAGE_WRITECOPY : Nat := 0x08
def PAGE_EXECUTE_READ : Nat := 0x20
def PAGE_EXECUTE_READWRITE : Nat := 0x40
def PAGE_EXECUTE_WRITECOPY : Nat := 0x80
def PAGE_GUARD : Nat := 0x100
def MEM_COMMIT : Nat := 0x1000
def MEM_PRIVATE : Nat := 0x20000
def MEM_MAPPED : Nat := 0x40000

def INVALID_ALLOCATION_TYPE : Nat := 0b001
def INVALID_PROTECTION_FLAGS : Nat := 0b010
def INVALID_PAGE_TYPE : Nat := 0b100

/- `MEMORY_BASIC_INFORMATION`, restricted to the three fields the safety
   predicate reads (`State`, `Protect`, `Type`). -/
structure MBI where
  State : Nat
  Protect : Nat
  pageType : Nat
  deriving DecidableEq

/- `is_readable` (src/memory/utils.rs:51). -/
def is_readable (protection : Nat) : Bool :=
  [PAGE_READONLY, PAGE_READWRITE, PAGE_WRITECOPY,
   PAGE_EXECUTE_READ, PAGE_EXECUTE_READWRITE, PAGE_EXECUTE_WRITECOPY].any
    fun flag => protection &&& flag == flag

/- `is_writable` (src/memory/utils.rs:68). -/
def is_writable (protection : Nat) : Bool :=
  protection &&&
    (PAGE_READWRITE ||| PAGE_WRITECOPY ||| PAGE_EXECUTE_READWRITE ||| PAGE_EXECUTE_WRITECOPY)
    != 0

/- `mbi_safe_write` (src/memory/utils.rs:78). -/
def mbi_safe_write (mbi : MBI) : Nat :=
  let f0 : Nat := 0
  let f1 := if mbi.State ≠ MEM_COMMIT then f0 ||| INVALID_ALLOCATION_TYPE else f0
  let f2 := if mbi.pageType = 0 then f1 ||| INVALID_PAGE_TYPE else f1
  let f3 :=
    if (mbi.pageType = MEM_MAPPED ∨ mbi.pageType = MEM_PRIVATE) ∧
        mbi.Protect &&& PAGE_WRITECOPY ≠ 0 then
      f2 ||| INVALID_PAGE_TYPE ||| INVALID_PROTECTION_FLAGS
    else f2
  let f4 :=
    if mbi.Protect &&& PAGE_GUARD ≠ 0 ∨ mbi.Protect = PAGE_GUARD ∨ mbi.Protect = PAGE_NOACCESS then
      f3 ||| INVALID_PROTECTION_FLAGS
    else f3
  if ¬ is_writable mbi.Protect then f4 ||| INVALID_PROTECTION_FLAGS else f4

/- `mbi_safe_read` (src/memory/utils.rs:111). -/
def mbi_safe_read (mbi : MBI) : Nat :=
  let f0 : Nat := 0
  let f1 :=
    if mbi.Protect &&& PAGE_GUARD ≠ 0 ∨ mbi.Protect = PAGE_GUARD ∨ mbi.Protect = PAGE_NOACCESS then
      f0 ||| INVALID_PROTECTION_FLAGS
    else f0
  if ¬ is_readable mbi.Protect then f1 ||| INVALID_PROTECTION_FLAGS else f1

/- `mbi_safety_check` (src/memory/utils.rs:128): `Ok(true)` when the flag is
   zero, otherwise the `MemoryStateInvalid` error carrying the page info and
   the 3-bit mask.  Note it never returns `Ok(false)`. -/
def mbi_safety_check (mbi : MBI) (needs_write : Bool) : Except MemOpError Bool :=
  let safety_flag := if needs_write then mbi_safe_write mbi else mbi_safe_read mbi
  if safety_flag = 0 then .ok true
  else
    .error (.memoryStateInvalid mbi.State mbi.Protect mbi.pageType safety_flag
      (some ("mbi_safety_check, needs_write: " ++ toString needs_write)))

/- Outcome of the polling loop on a supplied finite trace of page queries. -/
inductive WaitOutcome where
  | ok
  | error (e : MemOpError)
  | pending
  deriving DecidableEq

/- `Duration::from_secs(10)` in nanoseconds. -/
def ten_seconds : Nat := 10000000000

/- The `loop` of `wait_for_safe_mem_raw` (src/memory/utils.rs:160).
   Each trace entry supplies one `VirtualQueryEx` result (`Except` error =
   the WinAPI code/message from `get_last_error`) together with the value
   the `Instant` clock would show after that iteration's park; `pending`
   means the supplied trace ran out while the loop would keep going.
   `elapsed` is computed exactly as in the source: the clock reading when a
   timeout was supplied, and `Duration::from_secs(0)` when it was `None`. -/
def wait_check_branch (check : Except MemOpError Bool) (clockVal : Nat)
    (timeout : Option Nat) (timeout_dur : Nat) (next : WaitOutcome) : WaitOutcome :=
  match check with
  | .error e => .error e
  | .ok safe =>
    if safe then .ok
    else
      let elapsed := match timeout with
        | some _ => clockVal
        | none => 0
      if elapsed ≥ timeout_dur then
        .error (.other ["Reached timeout before memory region was readable"])
      else next

def wait_iter (needs_write : Bool) (timeout : Option Nat) (timeout_dur : Nat) :
    ((Int × String) ⊕ MBI × Nat) → WaitOutcome → WaitOutcome
  | .inl codeMsg, _ => .error (.winAPI codeMsg.1 codeMsg.2 none)
  | .inr (mbi, clockVal), next =>
    wait_check_branch (mbi_safety_check mbi needs_write) clockVal timeout timeout_dur next

def wait_loop (needs_write : Bool) (timeout : Option Nat) (timeout_dur : Nat) :
    List ((Int × String) ⊕ MBI × Nat) → WaitOutcome
  | [] => .pending
  | poll :: rest =>
    wait_iter needs_write timeout timeout_dur poll
      (wait_loop needs_write timeout timeout_dur rest)

/- The raw wait function of src/memory/utils.rs:146 (suffixed `_raw` here
   instead of the source's suffix): with no timeout the duration defaults
   to ten seconds (the source comment calls it a "Useless value"). -/
def wait_for_safe_mem_raw (needs_write : Bool) (timeout : Option Nat)
    (polls : List ((Int × String) ⊕ MBI × Nat)) : WaitOutcome :=
  let timeout_dur := match timeout with
    | some d => d
    | none => ten_seconds
  wait_loop needs_write timeout timeout_dur polls

/- `wait_for_safe_mem` (src/memory/utils.rs:195): the `with_handle!` wrapper
   (src/process/mod.rs:35) maps a failed guard acquisition to
   `TimeoutReached((timeout, None))`. -/
def wait_for_safe_mem (acquired : Bool) (needs_write : Bool) (timeout : Option Nat)
    (polls : List ((Int × String) ⊕ MBI × Nat)) : WaitOutcome :=
  if acquired then wait_for_safe_mem_raw needs_write timeout polls
  else .error (.timeoutReached timeout none)

def WaitOutcome.is_timeout : WaitOutcome → Bool
  | .error e => e.is_timeout
  | _ => false

/- ===== src/memory/mod.rs, read.rs, write.rs: typed facade ===== -/

/- Remote memory as a byte map; `read_value::<i32>` reads
   `size_of::<i32>() = 4` bytes little-endian. -/
def read_u32_le (mem : Nat → Nat) (a : Nat) : Nat :=
  mem a % 256 + 256 * (mem (a + 1) % 256) + 65536 * (mem (a + 2) % 256) +
    16777216 * (mem (a + 3) % 256)

/- Reinterpret a 32-bit value as a signed `i32`. -/
def i32_of_u32 (v : Nat) : Int :=
  if v < 2147483648 then (v : Int) else (v : Int) - 4294967296

/- Rust's `as usize` cast of an `i32` on a 64-bit target: sign-extend,
   then take the value mod 2^64. -/
def i32_as_usize (v : Int) : Nat :=
  (v % 18446744073709551616).toNat

/- The pointer computed by `read`/`write` (src/memory/mod.rs:96,
   src/memory/read.rs:82, src/memory/write.rs:88):
   `match context.at_pointer { true => read_value::<i32>(hook, data.var_mem.addr, ..) as usize,
                               false => data.var_mem.addr }`.
   `context.addr` is not consulted. -/
def effective_ptr (var_mem_addr : Nat) (ctx : MemOpContext) (mem : Nat → Nat) : Nat :=
  if ctx.at_pointer then i32_as_usize (i32_of_u32 (read_u32_le mem var_mem_addr))
  else var_mem_addr

/- The address the final `read_value::<T>` of `read` targets:
   `ptr + context.offset` (usize addition, wrapping model). -/
def read_effective_address (var_mem_addr : Nat) (ctx : MemOpContext) (mem : Nat → Nat) : Nat :=
  (effective_ptr var_mem_addr ctx mem + ctx.offset) % 18446744073709551616

/- The address the final `write_value::<T>` of `write` targets
   (src/memory/write.rs:95); the pointer computation is textually the same
   as in `read`. -/
def write_effective_address (var_mem_addr : Nat) (ctx : MemOpContext) (mem : Nat → Nat) : Nat :=
  (effective_ptr var_mem_addr ctx mem + ctx.offset) % 18446744073709551616

/- Lock/remote-call event traces of the facade operations, for the lock
   discipline claim.  Each `read_value`/`write_value` call (which performs
   its own page queries and the remote transfer) is abstracted to a single
   remote event at its target address. -/
inductive MemEvent where
  | lock_read
  | unlock_read
  | remote_read (addr : Nat)
  | remote_write (addr : Nat)
  deriving DecidableEq

/- Event trace of `read` (src/memory/mod.rs:94): take the `HookData` read
   lock; if `at_pointer`, issue the 32-bit pointer read at `var_mem.addr`
   while still holding the lock; `drop(data)`; then the final typed read. -/
def read_trace (var_mem_addr : Nat) (ctx : MemOpContext) (mem : Nat → Nat) : List MemEvent :=
  MemEvent.lock_read ::
    (if ctx.at_pointer then [MemEvent.remote_read var_mem_addr] else []) ++
    [MemEvent.unlock_read, MemEvent.remote_read (read_effective_address var_mem_addr ctx mem)]

/- Event trace of `write` (src/memory/write.rs:82): same shape, with a
   remote write as the final operation. -/
def write_trace (var_mem_addr : Nat) (ctx : MemOpContext) (mem : Nat → Nat) : List MemEvent :=
  MemEvent.lock_read ::
    (if ctx.at_pointer then [MemEvent.remote_read var_mem_addr] else []) ++
    [MemEvent.unlock_read, MemEvent.remote_write (write_effective_address var_mem_addr ctx mem)]

/- `true` when some remote read/write occurs while the lock is held
   (`held` is the lock state entering the trace). -/
def remote_while_locked : List MemEvent → Bool → Bool
  | [], _ => false
  | e :: es, held =>
    match e with
    | .lock_read => remote_while_locked es true
    | .unlock_read => remote_while_locked es false
    | .remote_read _ => held || remote_while_locked es held
    | .remote_write _ => held || remote_while_locked es held

/- ===== src/asm/mod.rs: trampoline helpers ===== -/

/- Wrap an integer into the `u32` range (the bit pattern of a wrapping
   `i32` computation). -/
def u32_wrap (n : Int) : Int := n % 4294967296

/- Reduce an integer to the signed `i32` range; `as i32` casts and
   wrapping `i32` arithmetic factor through this. -/
def i32_wrap (n : Int) : Int := (n + 2147483648) % 4294967296 - 2147483648

/- `usize as i32`. -/
def usize_as_i32 (n : Nat) : Int := i32_wrap (n : Int)

def i32_add (a b : Int) : Int := i32_wrap (a + b)

def i32_sub (a b : Int) : Int := i32_wrap (a - b)

/- Little-endian byte encoding of a `u32` value. -/
def u32_le_bytes (v : Nat) : List Nat :=
  [v % 256, v / 256 % 256, v / 65536 % 256, v / 16777216 % 256]

/- The `u32` bit pattern of an `i32` value. -/
def u32_of_i32 (v : Int) : Nat := (v % 4294967296).toNat

/- `newmem_jmp` (src/asm/mod.rs:110):
   `newmem = hook.hook_mem.addr as i32;`
   `newmem_rel_jmp = newmem - (hook.get_addr()? as i32 + 5);`
   then `dynasm!(ops ; .arch x86 ; jmp newmem_rel_jmp)`, which emits the
   5-byte `E9 rel32` encoding with the displacement as given.  `get_addr`
   errors when `addr` is `None` (modelled as `none`). -/
def newmem_jmp (hd : HookData) : Option (List Nat) :=
  match hd.addr with
  | none => none
  | some a =>
    let newmem := usize_as_i32 hd.hook_mem.addr
    let newmem_rel_jmp := i32_sub newmem (i32_add (usize_as_i32 a) 5)
    some (0xE9 :: u32_le_bytes (u32_of_i32 newmem_rel_jmp))

/- `calc_rel_inst` (src/asm/mod.rs:31):
   `(dest as i32) - (origin as i32 + (ops.offset().0 as i32 - 1) + inst_size as i32)`. -/
def calc_rel_inst (asm_offset origin dest inst_size : Nat) : Int :=
  i32_sub (usize_as_i32 dest)
    (i32_add (i32_add (usize_as_i32 origin) (i32_sub (usize_as_i32 asm_offset) 1))
      (usize_as_i32 inst_size))

/- ===== src/hooks/mod.rs: lifecycle ===== -/

/- The write-lock block of `Hook::hook` (src/hooks/mod.rs:176): scan the
   module image for the pattern and, on a first match at relative offset
   `a` with captured bytes `b`, set `addr = module base + a` and
   `found_bytes = b`.  When the scan finds nothing the function returns
   `PatternNotFound` before mutating, and when the scan panics the record
   is likewise untouched, so both leave the state unchanged. -/
def hook_update (d : HookData) (module_base : Nat) (module_bytes : List Nat) : HookData :=
  match find_pattern_in_bytes module_bytes d.pattern with
  | some ((a, b) :: _) =>
    { d with addr := some (module_base + a), found_bytes := some b }
  | _ => d

/- What one `Hook::unhook` call does: its result, the remote writes it
   issues (address, bytes), and the regions it releases. -/
structure UnhookOutcome where
  result : Except MemOpError Unit
  writes : List (Nat × List Nat)
  frees : List Nat

/- `Hook::unhook` (src/hooks/mod.rs:206): return `Ok` at once when `addr`
   is `None`; fail with the `Other` message when a patch address exists but
   no bytes were captured; otherwise write
   `create_unhook_bytes(hook_impl.pattern(), found_bytes)` at the patch
   address.  `impl_pattern` is `self.hook_impl.pattern()`.  No region is
   released (the remote write itself is modelled as succeeding). -/
def unhook (impl_pattern : List Byte) (d : HookData) : UnhookOutcome :=
  match d.addr with
  | none => ⟨.ok (), [], []⟩
  | some inject_addr =>
    match d.found_bytes with
    | some found_bytes =>
      ⟨.ok (), [(inject_addr, create_unhook_bytes impl_pattern found_bytes)], []⟩
    | none =>
      ⟨.error (.other ["Unhook called without pattern scanned and match found."]), [], []⟩

/- `HookData` states reachable through the public operations.  `Hook::new`
   (src/hooks/mod.rs:68) builds the record with the impl's pattern `p` and
   `addr = found_bytes = None`; each `hook` call transitions by
   `hook_update`; `unhook` takes only the read lock and never mutates the
   record. -/
inductive Reachable (p : List Byte) : HookData → Prop where
  | init (ma : Nat) (hm vm : MemoryRegion) (vs has : Nat) :
      Reachable p
        { module_addr := ma, hook_mem := hm, var_mem := vm, pattern := p,
          var_size := vs, hook_alloc_size := has, addr := none, found_bytes := none }
  | hook (d : HookData) (base : Nat) (bytes : List Nat) :
      Reachable p d → Reachable p (hook_update d base bytes)

/- ===== Pattern-engine lemmas ===== -/

theorem match_loop_ne_none (H : List Nat) (P : List Byte) :
    ∀ k, k + P.length ≤ H.length → match_loop H k P ≠ none := by
  induction P with
  | nil => intro k _ h; exact Option.noConfusion h
  | cons p ps ih =>
    intro k hk
    have hklt : k < H.length := by simp only [List.length_cons] at hk; omega
    obtain ⟨b, hb⟩ : ∃ b, H.get? k = some b := by
      cases hcb : H.get? k with
      | none => exact absurd (List.get?_eq_none.mp hcb) (by omega)
      | some b => exact ⟨b, rfl⟩
    rw [match_loop, hb]
    dsimp only
    by_cases hbm : byte_matches b p = true
    · rw [if_pos hbm]
      exact ih (k + 1) (by simp only [List.length_cons] at hk; omega)
    · rw [if_neg hbm]
      intro h; exact Option.noConfusion h

theorem match_loop_true_iff (H : List Nat) (P : List Byte) :
    ∀ k, k + P.length ≤ H.length →
      (match_loop H k P = some true ↔
        ∀ j b, P.get? j = some (some b) → H.get? (k + j) = some b) := by
  induction P with
  | nil =>
    intro k _
    constructor
    · intro _ j b hj
      simp at hj
    · intro _; rfl
  | cons p ps ih =>
    intro k hk
    have hklt : k < H.length := by simp only [List.length_cons] at hk; omega
    obtain ⟨b, hb⟩ : ∃ b, H.get? k = some b := by
      cases hcb : H.get? k with
      | none => exact absurd (List.get?_eq_none.mp hcb) (by omega)
      | some b => exact ⟨b, rfl⟩
    have hrec := ih (k + 1) (by simp only [List.length_cons] at hk; omega)
    rw [match_loop, hb]
    dsimp only
    by_cases hbm : byte_matches b p = true
    · rw [if_pos hbm, hrec]
      constructor
      · intro htail j b' hj
        cases j with
        | zero =>
          simp only [List.get?_cons_zero, Option.some.injEq] at hj
          subst hj
          simp only [byte_matches, beq_iff_eq] at hbm
          subst hbm
          simpa using hb
        | succ j =>
          have := htail j b' (by simpa using hj)
          simpa [Nat.add_assoc, Nat.add_comm 1 j] using this
      · intro hall j b' hj
        have := hall (j + 1) b' (by simpa using hj)
        simpa [Nat.add_assoc, Nat.add_comm 1 j] using this
    · rw [if_neg hbm]
      constructor
      · intro h; exact absurd h (by simp)
      · intro hall
        cases hp : p with
        | none => exact absurd (by simp [byte_matches, hp]) hbm
        | some x =>
          have h0 := hall 0 x (by simp [hp])
          rw [Nat.add_zero, hb] at h0
          have hbx : b = x := by injection h0
          subst hbx
          exact absurd (by simp [byte_matches, hp]) hbm

theorem match_loop_true_bound (H : List Nat) (P : List Byte) :
    ∀ k, match_loop H k P = some true → k + P.length ≤ H.length ∨ P = [] := by
  induction P with
  | nil => intro k _; exact Or.inr rfl
  | cons p ps ih =>
    intro k h
    rw [match_loop] at h
    cases hb : H.get? k with
    | none => rw [hb] at h; exact Option.noConfusion h
    | some b =>
      rw [hb] at h
      dsimp only at h
      by_cases hbm : byte_matches b p = true
      · rw [if_pos hbm] at h
        rcases ih (k + 1) h with htl | hnil
        · left; simp only [List.length_cons]; omega
        · subst hnil
          left
          have hklt : k < H.length := by
            by_contra hc
            rw [List.get?_eq_none.mpr (by omega)] at hb
            exact Option.noConfusion hb
          simp only [List.length_cons, List.length_nil]
          omega
      · rw [if_neg hbm] at h
        exact absurd h (by simp)

theorem capture_length_of_match (H : List Nat) (P : List Byte) (k : Nat)
    (h : match_loop H k P = some true) :
    ((H.drop k).take P.length).length = P.length := by
  rcases match_loop_true_bound H P k h with hb | hnil
  · simp only [List.length_take, List.length_drop]
    omega
  · subst hnil; rfl

theorem create_unhook_bytes_cons (p : Byte) (ps : List Byte) (b : Nat) (c : List Nat) :
    create_unhook_bytes (p :: ps) (b :: c) =
      (match p with
        | none => b
        | some x => x) :: create_unhook_bytes ps c := rfl

theorem create_unhook_of_match (H : List Nat) (P : List Byte) :
    ∀ k, match_loop H k P = some true →
      create_unhook_bytes P ((H.drop k).take P.length) = (H.drop k).take P.length := by
  induction P with
  | nil => intro k _; rfl
  | cons p ps ih =>
    intro k h
    rw [match_loop] at h
    cases hb : H.get? k with
    | none => rw [hb] at h; exact Option.noConfusion h
    | some b =>
      rw [hb] at h
      dsimp only at h
      by_cases hbm : byte_matches b p = true
      · rw [if_pos hbm] at h
        have hklt : k < H.length := by
          by_contra hc
          rw [List.get?_eq_none.mpr (by omega)] at hb
          exact Option.noConfusion hb
        have hbElem : H[k] = b := by
          have h1 : H[k]? = some b := by rw [← List.get?_eq_getElem?]; exact hb
          rw [List.getElem?_eq_getElem hklt] at h1
          injection h1
        have hdrop : H.drop k = b :: H.drop (k + 1) := by
          rw [List.drop_eq_getElem_cons hklt, hbElem]
        rw [hdrop]
        simp only [List.length_cons, List.take_succ_cons, create_unhook_bytes_cons]
        rw [ih (k + 1) h]
        cases hp : p with
        | none => rfl
        | some x =>
          simp only [byte_matches, hp, beq_iff_eq] at hbm
          rw [hbm]
      · rw [if_neg hbm] at h
        exact absurd h (by simp)

theorem scan_from_sound (H : List Nat) (P : List Byte) :
    ∀ fuel i l, scan_from H P i fuel = some l →
      ∀ x ∈ l, i ≤ x.1 ∧ match_loop H x.1 P = some true ∧
        x.2 = (H.drop x.1).take P.length := by
  intro fuel
  induction fuel with
  | zero =>
    intro i l h x hx
    rw [scan_from] at h
    injection h with h
    subst h
    cases hx
  | succ n ihn =>
    intro i l h x hx
    rw [scan_from] at h
    cases hm : match_loop H i P with
    | none => rw [hm] at h; exact Option.noConfusion h
    | some bb =>
      rw [hm] at h
      cases bb with
      | true =>
        dsimp only at h
        cases hrec : scan_from H P (i + 1) n with
        | none => rw [hrec] at h; exact Option.noConfusion h
        | some rest =>
          rw [hrec] at h
          simp only [Option.map_some'] at h
          injection h with h
          subst h
          rcases List.mem_cons.mp hx with hx | hx
          · subst hx
            exact ⟨Nat.le_refl i, hm, rfl⟩
          · obtain ⟨h1, h2, h3⟩ := ihn (i + 1) rest hrec x hx
            exact ⟨by omega, h2, h3⟩
      | false =>
        dsimp only at h
        obtain ⟨h1, h2, h3⟩ := ihn (i + 1) l h x hx
        exact ⟨by omega, h2, h3⟩

theorem scan_from_eq (H : List Nat) (P : List Byte) :
    ∀ fuel i, (∀ j, j < fuel → match_loop H (i + j) P ≠ none) →
      scan_from H P i fuel = some ((List.range' i fuel).filterMap fun o =>
        if match_loop H o P = some true then some (o, (H.drop o).take P.length) else none) := by
  intro fuel
  induction fuel with
  | zero => intro i _; rfl
  | succ n ihn =>
    intro i h
    have h0 : match_loop H i P ≠ none := by simpa using h 0 (Nat.succ_pos n)
    have hrest := ihn (i + 1) (fun j hj => by
      have := h (j + 1) (by omega)
      simpa [Nat.add_assoc, Nat.add_comm 1 j] using this)
    rw [scan_from]
    cases hm : match_loop H i P with
    | none => exact absurd hm h0
    | some bb =>
      cases bb with
      | true =>
        dsimp only
        rw [hrest]
        simp only [Option.map_some', Option.some.injEq]
        rw [List.range'_succ, List.filterMap_cons, if_pos hm]
      | false =>
        dsimp only
        rw [hrest, List.range'_succ, List.filterMap_cons,
          if_neg (by rw [hm]; intro hc; exact Bool.noConfusion (Option.some.inj hc))]

theorem matches_at_iff (H : List Nat) (P : List Byte) (o : Nat)
    (hbound : o + P.length ≤ H.length) :
    matches_at H P o = true ↔ match_loop H o P = some true := by
  rw [match_loop_true_iff H P o hbound]
  unfold matches_at
  simp only [Bool.and_eq_true, decide_eq_true_eq, List.all_eq_true]
  constructor
  · rintro ⟨_, hall⟩ j b hj
    have hjlen : j < P.length := by
      by_contra hc
      rw [List.get?_eq_none.mpr (by omega)] at hj
      exact Option.noConfusion hj
    have := hall j (List.mem_range.mpr hjlen)
    rw [hj] at this
    simpa using this
  · intro hall
    refine ⟨hbound, fun j hj => ?_⟩
    cases hpj : P.get? j with
    | none => simp
    | some ob =>
      cases ob with
      | none => simp
      | some b =>
        have hh := hall j b hpj
        rw [List.get?_eq_getElem?] at hh
        simp [hh]

theorem filterMap_if_eq_filter (p : Nat → Bool) (l : List Nat) :
    (l.filterMap fun a => if p a then some a else none) = l.filter p := by
  induction l with
  | nil => rfl
  | cons a l ih =>
    by_cases h : p a
    · simp [List.filterMap_cons, List.filter_cons, h, ih]
    · simp [List.filterMap_cons, List.filter_cons, h, ih]

theorem find_pattern_eq_spec (H : List Nat) (P : List Byte) (hlen : P.length ≤ H.length) :
    find_pattern_in_bytes H P = some (spec_find_all H P) := by
  rw [find_pattern_in_bytes,
    scan_from_eq H P (H.length - P.length + 1) 0
      (fun j hj => match_loop_ne_none H P (0 + j) (by omega))]
  congr 1
  rw [show List.range' 0 (H.length - P.length + 1) = List.range (H.length - P.length + 1) from
    (List.range_eq_range' _).symm]
  unfold spec_find_all
  apply List.filterMap_congr
  intro o ho
  have hor : o < H.length - P.length + 1 := List.mem_range.mp ho
  have hbound : o + P.length ≤ H.length := by omega
  by_cases hc : match_loop H o P = some true
  · rw [if_pos hc, if_pos ((matches_at_iff H P o hbound).mpr hc)]
  · rw [if_neg hc, if_neg (fun hmt => hc ((matches_at_iff H P o hbound).mp hmt))]

theorem mem_spec_find_all (H : List Nat) (P : List Byte) (o : Nat) (c : List Nat) :
    (o, c) ∈ spec_find_all H P ↔
      matches_at H P o = true ∧ c = (H.drop o).take P.length := by
  unfold spec_find_all
  rw [List.mem_filterMap]
  constructor
  · rintro ⟨a, _, hfa⟩
    by_cases hm : matches_at H P a = true
    · rw [if_pos hm] at hfa
      injection hfa with hfa
      obtain ⟨rfl, rfl⟩ := Prod.mk.injEq .. ▸ And.intro (congrArg Prod.fst hfa) (congrArg Prod.snd hfa)
      exact ⟨hm, rfl⟩
    · rw [if_neg hm] at hfa
      exact absurd hfa (by simp)
  · rintro ⟨hm, rfl⟩
    refine ⟨o, ?_, by rw [if_pos hm]⟩
    rw [List.mem_range]
    unfold matches_at at hm
    simp only [Bool.and_eq_true, decide_eq_true_eq] at hm
    omega

theorem spec_find_all_sorted (H : List Nat) (P : List Byte) :
    List.Pairwise (· < ·) ((spec_find_all H P).map Prod.fst) := by
  unfold spec_find_all
  rw [List.map_filterMap]
  have hfun : (fun o => (if matches_at H P o then
        some (o, (H.drop o).take P.length) else none).map Prod.fst) =
      fun o => if matches_at H P o then some o else none := by
    funext o
    by_cases h : matches_at H P o = true
    · rw [if_pos h, if_pos h, Option.map_some']
    · rw [if_neg h, if_neg h, Option.map_none']
  rw [hfun, filterMap_if_eq_filter]
  exact List.Pairwise.sublist (List.filter_sublist _) (List.pairwise_lt_range _)

theorem matches_at_true_iff (H : List Nat) (P : List Byte) (o : Nat) :
    matches_at H P o = true ↔
      o + P.length ≤ H.length ∧
        ∀ j b, P.get? j = some (some b) → H.get? (o + j) = some b := by
  unfold matches_at
  simp only [Bool.and_eq_true, decide_eq_true_eq, List.all_eq_true]
  constructor
  · rintro ⟨hb, hall⟩
    refine ⟨hb, fun j b hj => ?_⟩
    have hjlen : j < P.length := by
      by_contra hc
      rw [List.get?_eq_none.mpr (by omega)] at hj
      exact Option.noConfusion hj
    have := hall j (List.mem_range.mpr hjlen)
    rw [hj] at this
    simpa using this
  · rintro ⟨hb, hall⟩
    refine ⟨hb, fun j _ => ?_⟩
    cases hpj : P.get? j with
    | none => simp
    | some ob =>
      cases ob with
      | none => simp
      | some b =>
        have hh := hall j b hpj
        rw [List.get?_eq_getElem?] at hh
        simp [hh]

/- ===== Claim theorems ===== -/

/- C3 counterexample: at the empty haystack and the one-wildcard pattern the
   scan still probes offset 0, indexes past the end and panics (`none`),
   instead of returning the (empty) list of valid offsets. -/
theorem find_pattern_panics_on_short_haystack :
    find_pattern_in_bytes [] [(none : Byte)] = none ∧
    spec_find_all [] [(none : Byte)] = [] := by
  constructor <;> rfl

/- C3 (amended): whenever the pattern is no longer than the haystack,
   `find_pattern_in_bytes` returns exactly the offsets `o` with
   `o + P.length ≤ H.length` at which every non-wildcard position agrees
   with the haystack, in strictly ascending order, each paired with the
   captured slice `H[o .. o + P.length]`. -/
theorem find_pattern_in_bytes_spec (H : List Nat) (P : List Byte)
    (hlen : P.length ≤ H.length) :
    find_pattern_in_bytes H P = some (spec_find_all H P) ∧
    (∀ o c, (o, c) ∈ spec_find_all H P ↔
      (o + P.length ≤ H.length ∧
        (∀ j b, P.get? j = some (some b) → H.get? (o + j) = some b) ∧
        c = (H.drop o).take P.length)) ∧
    List.Pairwise (· < ·) ((spec_find_all H P).map Prod.fst) := by
  refine ⟨find_pattern_eq_spec H P hlen, fun o c => ?_, spec_find_all_sorted H P⟩
  rw [mem_spec_find_all, matches_at_true_iff]
  constructor
  · rintro ⟨⟨h1, h2⟩, h3⟩
    exact ⟨h1, h2, h3⟩
  · rintro ⟨h1, h2, h3⟩
    exact ⟨⟨h1, h2⟩, h3⟩

/- C3 witness: the spec's wildcard scenario `48 ?? 8B` against
   `[01 48 FF 8B 02 48 7A 8B]`. -/
theorem find_pattern_in_bytes_spec_witness :
    ([some 72, none, some 139] : List Byte).length ≤
      ([1, 72, 255, 139, 2, 72, 122, 139] : List Nat).length ∧
    (find_pattern_in_bytes [1, 72, 255, 139, 2, 72, 122, 139] [some 72, none, some 139] =
        some (spec_find_all [1, 72, 255, 139, 2, 72, 122, 139] [some 72, none, some 139]) ∧
      (∀ o c, (o, c) ∈ spec_find_all [1, 72, 255, 139, 2, 72, 122, 139]
          [some 72, none, some 139] ↔
        (o + ([some 72, none, some 139] : List Byte).length ≤
            ([1, 72, 255, 139, 2, 72, 122, 139] : List Nat).length ∧
          (∀ j b, ([some 72, none, some 139] : List Byte).get? j = some (some b) →
            ([1, 72, 255, 139, 2, 72, 122, 139] : List Nat).get? (o + j) = some b) ∧
          c = (([1, 72, 255, 139, 2, 72, 122, 139] : List Nat).drop o).take
            ([some 72, none, some 139] : List Byte).length)) ∧
      List.Pairwise (· < ·)
        ((spec_find_all [1, 72, 255, 139, 2, 72, 122, 139]
          [some 72, none, some 139]).map Prod.fst)) :=
  ⟨by decide, find_pattern_in_bytes_spec _ _ (by decide)⟩

/- C2: when `hook()` captures `found_bytes` from the first scan match, a
   subsequent `unhook()` writes exactly those captured bytes back at the
   patch-site address, restoring the pre-install contents. -/
theorem unhook_restores_found_bytes (d : HookData) (base : Nat) (H : List Nat)
    (a : Nat) (b : List Nat) (rest : List (Nat × List Nat)) (p : List Byte)
    (hp : p = d.pattern)
    (hscan : find_pattern_in_bytes H d.pattern = some ((a, b) :: rest)) :
    unhook p (hook_update d base H) = ⟨.ok (), [(base + a, b)], []⟩ := by
  subst hp
  have hsound := scan_from_sound H d.pattern _ 0 _ hscan (a, b) (List.mem_cons_self _ _)
  obtain ⟨_, hml, hcap⟩ := hsound
  dsimp only at hml hcap
  have hrestore : create_unhook_bytes d.pattern b = b := by
    rw [hcap]
    exact create_unhook_of_match H d.pattern a hml
  rw [hook_update, hscan]
  dsimp only
  rw [unhook]
  dsimp only
  rw [hrestore]

/- C2 witness: hooking then unhooking the wildcard scenario writes the
   captured bytes `48 FF 8B` back at module base + 1. -/
theorem unhook_restores_found_bytes_witness :
    unhook [some 72, none, some 139]
        (hook_update
          { module_addr := 0, hook_mem := ⟨1, 100, 4096⟩, var_mem := ⟨1, 200, 4⟩,
            pattern := [some 72, none, some 139], var_size := 4, hook_alloc_size := 4096,
            addr := none, found_bytes := none }
          4194304 [1, 72, 255, 139, 2, 72, 122, 139]) =
      ⟨.ok (), [(4194305, [72, 255, 139])], []⟩ :=
  unhook_restores_found_bytes
    { module_addr := 0, hook_mem := ⟨1, 100, 4096⟩, var_mem := ⟨1, 200, 4⟩,
      pattern := [some 72, none, some 139], var_size := 4, hook_alloc_size := 4096,
      addr := none, found_bytes := none }
    4194304 [1, 72, 255, 139, 2, 72, 122, 139] 1 [72, 255, 139] [(5, [72, 122, 139])]
    [some 72, none, some 139] rfl (by decide)

/- C5: `unhook` is a three-way case split on the hook state: a missing
   patch address succeeds at once with no write; a patch address without
   captured bytes fails with the `Other` message; otherwise it writes the
   reconstructed bytes at the patch address.  In every case no region is
   released. -/
theorem unhook_case_split (p : List Byte) (d : HookData) :
    (unhook p d).frees = [] ∧
    (match d.addr, d.found_bytes with
     | none, _ => unhook p d = ⟨.ok (), [], []⟩
     | some _, none =>
         unhook p d =
           ⟨.error (.other ["Unhook called without pattern scanned and match found."]), [], []⟩
     | some a, some fb => unhook p d = ⟨.ok (), [(a, create_unhook_bytes p fb)], []⟩) := by
  rcases d with ⟨ma, hm, vm, pat, vs, has, addr, fb⟩
  cases addr <;> cases fb <;> exact ⟨rfl, rfl⟩

theorem hook_update_pattern (d : HookData) (base : Nat) (bytes : List Nat) :
    (hook_update d base bytes).pattern = d.pattern := by
  rw [hook_update]
  cases hfind : find_pattern_in_bytes bytes d.pattern with
  | none => rfl
  | some l =>
    cases l with
    | nil => rfl
    | cons x rest =>
      obtain ⟨a, b⟩ := x
      rfl

theorem reachable_found_len_aux (p : List Byte) (d : HookData) (hr : Reachable p d) :
    ∀ fb, d.found_bytes = some fb → fb.length = d.pattern.length := by
  induction hr with
  | init ma hm vm vs has => intro fb hfb; exact absurd hfb (by simp)
  | hook d base bytes hd ih =>
    intro fb hfb
    rw [hook_update_pattern]
    rw [hook_update] at hfb
    cases hfind : find_pattern_in_bytes bytes d.pattern with
    | none => rw [hfind] at hfb; exact ih fb hfb
    | some l =>
      rw [hfind] at hfb
      cases l with
      | nil => exact ih fb hfb
      | cons x rest =>
        obtain ⟨a, b⟩ := x
        dsimp only at hfb
        injection hfb with hfb
        subst hfb
        rw [find_pattern_in_bytes] at hfind
        obtain ⟨_, hml, hcap⟩ :=
          scan_from_sound bytes d.pattern _ 0 _ hfind (a, b) (List.mem_cons_self _ _)
        dsimp only at hml hcap
        rw [hcap]
        exact capture_length_of_match bytes d.pattern a hml

/- C10: in every `HookData` state reachable through `Hook::new`, `hook`
   and `unhook`, the captured `found_bytes` (when present) has exactly the
   length of the stored pattern. -/
theorem found_bytes_length_invariant (p : List Byte) (d : HookData) (fb : List Nat)
    (hr : Reachable p d) (hfb : d.found_bytes = some fb) :
    fb.length = d.pattern.length :=
  reachable_found_len_aux p d hr fb hfb

/- C10 witness: after one successful `hook` transition on a 1-byte
   pattern the captured bytes have the pattern's length. -/
theorem found_bytes_length_invariant_witness :
    ([144] : List Nat).length =
      (hook_update
        { module_addr := 0, hook_mem := ⟨1, 100, 4096⟩, var_mem := ⟨1, 200, 4⟩,
          pattern := [some 144], var_size := 4, hook_alloc_size := 4096,
          addr := none, found_bytes := none }
        4194304 [144]).pattern.length :=
  found_bytes_length_invariant [some 144] _ [144]
    (Reachable.hook _ 4194304 [144] (Reachable.init 0 ⟨1, 100, 4096⟩ ⟨1, 200, 4⟩ 4 4096))
    (by decide)

/- C4: `Drop for MemoryRegion` issues a local-process `VirtualFree` that
   never mentions the region's process handle — the remote span is not
   released through the handle as documented. -/
theorem memoryRegion_drop_local_free :
    memoryRegion_drop ⟨77, 4096, 8192⟩ = OsCall.virtualFree 4096 8192 MEM_RELEASE ∧
    (memoryRegion_drop ⟨77, 4096, 8192⟩).uses_handle = false :=
  ⟨rfl, rfl⟩

/- C1 counterexample: with `ctx.addr = 1`, `offset = 0`, `at_pointer =
   false` and `var_mem.addr = 2`, the facade targets address 2, not
   `ctx.addr + offset = 1`. -/
theorem read_ignores_context_addr :
    read_effective_address 2 ⟨1, 0, false, none⟩ (fun _ => 0) = 2 ∧
    (read_effective_address 2 ⟨1, 0, false, none⟩ (fun _ => 0) == (1 : Nat) + 0) = false := by
  constructor <;> rfl

/- C1 (amended): `read` and `write` compute the same effective address; it
   never depends on `ctx.addr`; the base is always `var_mem.addr`, and with
   `at_pointer` the value read at `var_mem.addr` is a signed 32-bit read
   whose `as usize` cast sign-extends. -/
theorem effective_address_spec (var_mem_addr : Nat) (ctx : MemOpContext)
    (mem : Nat → Nat) (other_addr : Nat) :
    write_effective_address var_mem_addr ctx mem =
      read_effective_address var_mem_addr ctx mem ∧
    read_effective_address var_mem_addr
        ⟨other_addr, ctx.offset, ctx.at_pointer, ctx.timeout⟩ mem =
      read_effective_address var_mem_addr ctx mem ∧
    read_effective_address var_mem_addr ctx mem =
      ((if ctx.at_pointer then i32_as_usize (i32_of_u32 (read_u32_le mem var_mem_addr))
        else var_mem_addr) + ctx.offset) % 18446744073709551616 :=
  ⟨rfl, rfl, rfl⟩

/- C9 counterexample: with `at_pointer = true`, the 32-bit pointer
   dereference is issued while the `HookData` read lock is held. -/
theorem pointer_read_under_lock :
    remote_while_locked (read_trace 200 ⟨200, 4, true, none⟩ (fun _ => 0)) false = true ∧
    remote_while_locked (write_trace 200 ⟨200, 4, true, none⟩ (fun _ => 0)) false = true := by
  constructor <;> rfl

/- C9 (amended): a remote call is issued under the `HookData` read lock
   exactly when `at_pointer` is set (the pointer dereference); the final
   typed read/write itself always happens after the lock is dropped. -/
theorem lock_discipline_spec (v : Nat) (ctx : MemOpContext) (mem : Nat → Nat) :
    remote_while_locked (read_trace v ctx mem) false = ctx.at_pointer ∧
    remote_while_locked (write_trace v ctx mem) false = ctx.at_pointer ∧
    (read_trace v ctx mem).getLast? =
      some (MemEvent.remote_read (read_effective_address v ctx mem)) ∧
    (read_trace v ctx mem).dropLast.getLast? = some MemEvent.unlock_read ∧
    (write_trace v ctx mem).getLast? =
      some (MemEvent.remote_write (write_effective_address v ctx mem)) ∧
    (write_trace v ctx mem).dropLast.getLast? = some MemEvent.unlock_read := by
  cases hap : ctx.at_pointer <;>
    simp [read_trace, write_trace, remote_while_locked, hap]

theorem mbi_safety_check_ok_true (mbi : MBI) (nw : Bool) (b : Bool)
    (h : mbi_safety_check mbi nw = .ok b) : b = true := by
  rw [mbi_safety_check] at h
  by_cases hf : (if nw then mbi_safe_write mbi else mbi_safe_read mbi) = 0
  · rw [if_pos hf] at h
    injection h with h
    exact h.symm
  · rw [if_neg hf] at h
    exact Except.noConfusion h

theorem mbi_safety_check_error_shape (mbi : MBI) (nw : Bool) (e : MemOpError)
    (h : mbi_safety_check mbi nw = .error e) : e.is_timeout = false ∧ e.is_other = false := by
  rw [mbi_safety_check] at h
  by_cases hf : (if nw then mbi_safe_write mbi else mbi_safe_read mbi) = 0
  · rw [if_pos hf] at h
    exact Except.noConfusion h
  · rw [if_neg hf] at h
    injection h with h
    subst h
    exact ⟨rfl, rfl⟩

/- C6 counterexample: with `timeout = none` and an unsafe page on every
   poll — the supplied clock already past the ten-second mark — the call
   fails with `MemoryStateInvalid` from the very first page query, not with
   `TimeoutReached`. -/
theorem wait_none_not_timeout_counterexample :
    wait_for_safe_mem true false none
        [Sum.inr (⟨4096, 1, 131072⟩, 20000000000), Sum.inr (⟨4096, 1, 131072⟩, 25000000000)] =
      .error (.memoryStateInvalid 4096 1 131072 2
        (some "mbi_safety_check, needs_write: false")) ∧
    (wait_for_safe_mem true false none
        [Sum.inr (⟨4096, 1, 131072⟩, 20000000000),
         Sum.inr (⟨4096, 1, 131072⟩, 25000000000)]).is_timeout = false := by
  constructor <;> rfl

/- C6 (amended): with `timeout = none` no ceiling is applied and the
   polling path never yields `TimeoutReached`: the safety-check error
   propagates from the first query (the loop body past the check is
   unreachable), so the outcome is decided entirely by the first poll;
   `TimeoutReached` arises only from a failed handle acquisition in the
   `with_handle!` wrapper. -/
theorem wait_none_timeout_spec (needs_write : Bool)
    (polls : List ((Int × String) ⊕ MBI × Nat)) (p : (Int × String) ⊕ MBI × Nat) :
    (wait_for_safe_mem_raw needs_write none polls).is_timeout = false ∧
    wait_for_safe_mem_raw needs_write none (p :: polls) =
      (match p with
       | .inl codeMsg => .error (.winAPI codeMsg.1 codeMsg.2 none)
       | .inr (mbi, _) =>
         match mbi_safety_check mbi needs_write with
         | .error e => .error e
         | .ok _ => .ok) ∧
    wait_for_safe_mem false needs_write none polls = .error (.timeoutReached none none) := by
  refine ⟨?_, ?_, rfl⟩
  · rw [wait_for_safe_mem_raw]
    cases polls with
    | nil => rfl
    | cons q rest =>
      rw [wait_loop]
      cases q with
      | inl codeMsg => rfl
      | inr mbiClock =>
        obtain ⟨mbi, clockVal⟩ := mbiClock
        rw [wait_iter]
        cases hchk : mbi_safety_check mbi needs_write with
        | error e =>
          exact (mbi_safety_check_error_shape mbi needs_write e hchk).1
        | ok safe =>
          rw [mbi_safety_check_ok_true mbi needs_write safe hchk]
          rfl
  · rw [wait_for_safe_mem_raw, wait_loop]
    cases p with
    | inl codeMsg => rfl
    | inr mbiClock =>
      obtain ⟨mbi, clockVal⟩ := mbiClock
      rw [wait_iter]
      dsimp only
      cases hchk : mbi_safety_check mbi needs_write with
      | error e => rfl
      | ok safe =>
        rw [mbi_safety_check_ok_true mbi needs_write safe hchk]
        rfl

/- C7 counterexample: adding context to a `TimeoutReached` error does not
   keep the variant — the result is an `Other` wrapping the rendered base
   error. -/
theorem context_changes_timeout_variant :
    memop_context (Except.error (MemOpError.timeoutReached none none) :
        Except MemOpError Unit) "while hooking" =
      Except.error (MemOpError.other
        ["while hooking: MemOpError: \"Timeout operation failed to complete within timeout.\""]) ∧
    (match memop_context (Except.error (MemOpError.timeoutReached none none) :
        Except MemOpError Unit) "while hooking" with
     | .error e => e.is_timeout
     | .ok _ => true) = false := by
  constructor <;> rfl

/- C7 (amended): `context` always produces the `Other` variant on errors:
   an `Other` base has the context prepended to its chain, while any other
   base variant is replaced by an `Other` holding the context prepended to
   the base error's rendered message. -/
theorem memop_context_spec {α : Type} (r : Except MemOpError α) (c : String) :
    (match r with
     | .ok v => memop_context r c = .ok v
     | .error (.other chain) => memop_context r c = .error (.other (c :: chain))
     | .error e => memop_context r c = .error (.other [c ++ ": " ++ e.display])) ∧
    (match memop_context r c with
     | .ok _ => True
     | .error e => e.is_other = true) := by
  rcases r with e | v
  · cases e <;> exact ⟨rfl, rfl⟩
  · exact ⟨rfl, trivial⟩

theorem i32_wrap_modeq (n : Int) : i32_wrap n ≡ n [ZMOD (4294967296 : Int)] := by
  unfold Int.ModEq i32_wrap
  omega

theorem i32_wrap_congr {x y : Int} (h : x ≡ y [ZMOD (4294967296 : Int)]) :
    i32_wrap x = i32_wrap y := by
  unfold Int.ModEq at h
  unfold i32_wrap
  omega

theorem i32_wrap_cast_eq (hm a : Nat) :
    u32_of_i32 (i32_sub (usize_as_i32 hm) (i32_add (usize_as_i32 a) 5)) =
      ((((hm : Int) - ((a : Int) + 5)) % 4294967296)).toNat := by
  simp only [u32_of_i32, i32_sub, i32_add, usize_as_i32, i32_wrap]
  omega

/- C8: `newmem_jmp` emits `E9` followed by the little-endian 32-bit
   displacement `hook_mem.addr - (patch_addr + 5)` computed in wrapping
   32-bit arithmetic, and `calc_rel_inst` computes
   `dest - (origin + (asm_offset - 1) + inst_size)` wrapped to `i32`. -/
theorem newmem_jmp_spec (hd : HookData) (a : Nat) (h : hd.addr = some a) :
    newmem_jmp hd = some (0xE9 ::
      u32_le_bytes ((((hd.hook_mem.addr : Int) - ((a : Int) + 5)) % 4294967296).toNat)) ∧
    ∀ asm_offset origin dest inst_size : Nat,
      calc_rel_inst asm_offset origin dest inst_size =
        i32_wrap ((dest : Int) -
          ((origin : Int) + ((asm_offset : Int) - 1) + (inst_size : Int))) := by
  constructor
  · rw [newmem_jmp, h]
    dsimp only
    rw [i32_wrap_cast_eq]
  · intro asm_offset origin dest inst_size
    show i32_wrap (usize_as_i32 dest -
        i32_wrap (i32_wrap (usize_as_i32 origin + i32_wrap (usize_as_i32 asm_offset - 1)) +
          usize_as_i32 inst_size)) = _
    apply i32_wrap_congr
    have hoff : usize_as_i32 asm_offset - 1 ≡ (asm_offset : Int) - 1 [ZMOD (4294967296 : Int)] :=
      (i32_wrap_modeq _).sub (Int.ModEq.refl 1)
    have hsum : usize_as_i32 origin + i32_wrap (usize_as_i32 asm_offset - 1) ≡
        (origin : Int) + ((asm_offset : Int) - 1) [ZMOD (4294967296 : Int)] :=
      (i32_wrap_modeq _).add ((i32_wrap_modeq _).trans hoff)
    have htot : i32_wrap (usize_as_i32 origin + i32_wrap (usize_as_i32 asm_offset - 1)) +
        usize_as_i32 inst_size ≡
        (origin : Int) + ((asm_offset : Int) - 1) + (inst_size : Int) [ZMOD (4294967296 : Int)] :=
      ((i32_wrap_modeq _).trans hsum).add (i32_wrap_modeq _)
    exact (i32_wrap_modeq _).sub ((i32_wrap_modeq _).trans htot)

/- C8 witness: a cave at 0x500000 hooked at patch site 0x401000 yields the
   jump `E9 FB EF 0F 00`, and the relative-instruction helper at concrete
   arguments agrees with the wrapped formula. -/
theorem newmem_jmp_spec_witness :
    ({ module_addr := 0, hook_mem := ⟨1, 5242880, 4096⟩, var_mem := ⟨1, 300, 4⟩,
       pattern := [], var_size := 4, hook_alloc_size := 4096, addr := some 4198400,
       found_bytes := none } : HookData).addr = some 4198400 ∧
    newmem_jmp
        { module_addr := 0, hook_mem := ⟨1, 5242880, 4096⟩, var_mem := ⟨1, 300, 4⟩,
          pattern := [], var_size := 4, hook_alloc_size := 4096, addr := some 4198400,
          found_bytes := none } =
      some (0xE9 ::
        u32_le_bytes ((((5242880 : Int) - ((4198400 : Int) + 5)) % 4294967296).toNat)) ∧
    calc_rel_inst 5 100 200 5 =
      i32_wrap ((200 : Int) - ((100 : Int) + ((5 : Int) - 1) + (5 : Int))) :=
  ⟨rfl,
    (newmem_jmp_spec _ 4198400 rfl).1,
    (newmem_jmp_spec
      { module_addr := 0, hook_mem := ⟨1, 5242880, 4096⟩, var_mem := ⟨1, 300, 4⟩,
        pattern := [], var_size := 4, hook_alloc_size := 4096, addr := some 4198400,
        found_bytes := none } 4198400 rfl).2 5 100 200 5⟩

end Zhol
